import Mathlib

/-!
Verification development for the television search core
(crates/television/channels.rs and crates/television/channels/alias.rs).

The alias channel and the channel registry are embedded shallowly:
* pure Rust functions become Lean functions;
* the mutating methods of `Channel` become explicit state-passing
  functions `Channel → … → Channel × result`;
* the background fuzzy-scoring engine (the external `nucleo` library) is
  out of scope of the repository and is modelled as a capability, exactly
  as the design document treats it: a tick is a bounded step that may
  publish a fresh immutable snapshot (list of ranked matched items, each
  carrying the matched-position indices the engine reports for its
  single comparison column `name ++ value`) together with a status flag
  saying whether the visible result set changed;
* `u32` arithmetic that can overflow (`num_entries + offset` in
  `Channel::results`) is modelled on `Nat` with an explicit `% 2^32`;
* fallible code (the `unwrap` calls in alias parsing) returns `Option`.

Types `Entry` (crate::entry) and the helper
`sep_name_and_value_indices` (crate::utils::indices) belong to the
repository but are not among the provided sources; they are modelled
from the design document, as marked on their doc comments.
-/

/-- Wrap-around modulus of the Rust `u32` type. -/
def u32Mod : Nat := 4294967296

/-- Icon tags are presentational and opaque to the search core; a plain
string tag models `devicons::FileIcon`. -/
abbrev FileIcon : Type := String

/-- String for the alias channel icon, `FILE_ICON_STR` in alias.rs. -/
def FILE_ICON_STR : String := "nu"

/-- Modelled from the spec: `preview_type` is an enum tag that is opaque
to the search core; only the variant used by the alias channel
(`PreviewType::EnvVar`) matters here, plus a generic basic variant. -/
inductive PreviewType
  | EnvVar
  | Basic
deriving DecidableEq

/-- Modelled from the spec: the canonical output record `Entry`
(crate::entry, not among the provided sources): an identifier, optional
associated value, optional icon, the highlight ranges on name and value,
and the preview tag. -/
structure Entry where
  name : String
  value : Option String := none
  icon : Option FileIcon := none
  name_match_ranges : Option (List (Nat × Nat)) := none
  value_match_ranges : Option (List (Nat × Nat)) := none
  preview_type : PreviewType
deriving DecidableEq

/-- Modelled from the spec: builder constructor `Entry::new`. -/
def Entry.new (name : String) (preview_type : PreviewType) : Entry :=
  { name := name, preview_type := preview_type }

/-- Modelled from the spec: builder `Entry::with_value` (immutable copy). -/
def Entry.with_value (e : Entry) (v : String) : Entry :=
  { e with value := some v }

/-- Modelled from the spec: builder `Entry::with_icon` (immutable copy). -/
def Entry.with_icon (e : Entry) (i : FileIcon) : Entry :=
  { e with icon := some i }

/-- Modelled from the spec: builder `Entry::with_name_match_ranges`. -/
def Entry.with_name_match_ranges (e : Entry) (rs : List (Nat × Nat)) : Entry :=
  { e with name_match_ranges := some rs }

/-- Modelled from the spec: builder `Entry::with_value_match_ranges`. -/
def Entry.with_value_match_ranges (e : Entry) (rs : List (Nat × Nat)) : Entry :=
  { e with value_match_ranges := some rs }

/-- An alias record, `struct Alias` of alias.rs: a name and a value. -/
structure Alias where
  name : String
  value : String
deriving DecidableEq

/-- One ranked matched item of an engine snapshot: the alias it ranks and
the flat set of matched character positions the scoring engine reports
for comparison column 0 (the column holds `name ++ value`, alias.rs
line 96).  The engine may report these indices out of order and with
duplicates. -/
structure ScoredItem where
  data : Alias
  indices : List Nat
deriving DecidableEq

/-- An immutable engine snapshot: the ranked list of currently matched
items and the engine's count of all ingested items. -/
structure Snapshot where
  matched : List ScoredItem
  item_count : Nat
deriving DecidableEq

/-- `Snapshot::matched_item_count` of the engine capability. -/
def Snapshot.matched_item_count (s : Snapshot) : Nat :=
  s.matched.length

/-- Modelled from the spec: the engine snapshot's ranked-slice accessor
`matched_items(lo..hi)`; an out-of-range or empty window yields an empty
slice (out-of-range queries are defined, not errors). -/
def Snapshot.matched_items (s : Snapshot) (lo hi : Nat) : List ScoredItem :=
  (s.matched.take hi).drop lo

/-- The engine guarantee that every reported match index is a position
inside comparison column 0, whose text is `name ++ value`. -/
def Snapshot.indicesWF (s : Snapshot) : Prop :=
  ∀ item ∈ s.matched, ∀ i ∈ item.indices,
    i < item.data.name.length + item.data.value.length

instance (s : Snapshot) : Decidable s.indicesWF :=
  inferInstanceAs (Decidable (∀ item ∈ s.matched, ∀ i ∈ item.indices, _))

/-- The engine guarantee that matched items are drawn from the ingested
items: the snapshot never ranks more items than were ingested. -/
def Snapshot.countWF (s : Snapshot) : Prop :=
  s.matched.length ≤ s.item_count

instance (s : Snapshot) : Decidable s.countWF :=
  inferInstanceAs (Decidable (_ ≤ _))

/-- `nucleo::pattern::CaseMatching` of the engine capability. -/
inductive CaseMatching
  | Ignore
  | Smart
  | Respect
deriving DecidableEq

/-- `nucleo::pattern::Normalization` of the engine capability. -/
inductive Normalization
  | Never
  | Smart
deriving DecidableEq

/-- One recorded call to the engine's `pattern.reparse`: column, new
pattern text, case policy, normalization policy, and the append
(narrowing) hint. -/
structure ReparseCall where
  column : Nat
  text : String
  case_matching : CaseMatching
  normalization : Normalization
  append : Bool
deriving DecidableEq

/-- The engine's pattern slot, observed through the sequence of reparse
calls issued to it (most recent first). -/
structure PatternState where
  reparses : List ReparseCall
deriving DecidableEq

/-- The engine status reported by a tick, `nucleo::Status`. -/
structure Status where
  changed : Bool
  running : Bool
deriving DecidableEq

/-- State of one embedded scoring-engine instance (`Nucleo<Alias>`): the
items pushed through its injector, the last published snapshot, and the
pattern slot. -/
structure Matcher where
  injected : List Alias
  snapshot : Snapshot
  pattern : PatternState
deriving DecidableEq

/-- The environment's contribution to one tick: whether the visible
result set changed, whether workers are still running, and the snapshot
visible after the tick.  Background scoring is nondeterministic from the
channel's viewpoint, so the outcome is an input of `results`. -/
structure TickOutcome where
  status : Status
  snapshot : Snapshot
deriving DecidableEq

/-- `Nucleo::tick`: a bounded step that installs the snapshot published
by the workers and reports the engine status. -/
def Matcher.tick (m : Matcher) (o : TickOutcome) : Matcher × Status :=
  ({ m with snapshot := o.snapshot }, o.status)

/-- `struct Channel` of alias.rs: engine, last pattern, icon, and the two
cached counters. -/
structure Channel where
  matcher : Matcher
  last_pattern : String
  file_icon : FileIcon
  result_count : Nat
  total_count : Nat
deriving DecidableEq

/-- Rust `str::split('=')` on a character list: splits at every
separator, always yields at least one (possibly empty) part. -/
def splitOnChar (sep : Char) : List Char → List (List Char)
  | [] => [[]]
  | c :: cs =>
    match splitOnChar sep cs with
    | [] => [[c]]
    | h :: t => if c = sep then [] :: h :: t else (c :: h) :: t

/-- The alias-line parser inlined in `Channel::new` (alias.rs lines
76-84): `split('=')`, first part is the name, second part is the value
(any later parts are dropped).  The second `unwrap` panics when the line
holds no `'='`; the panic is modelled as `none`. -/
def parseAlias (line : String) : Option Alias :=
  match splitOnChar '=' line.data with
  | [] => none
  | [_] => none
  | n :: v :: _ => some { name := ⟨n⟩, value := ⟨v⟩ }

/-- `Channel::new` (alias.rs lines 69-107) applied to the raw alias lines
the shell collaborator produced: parse every line (a line without `'='`
panics, modelled as `none` for the whole construction), push the parsed
aliases through the injector, and start with an empty pattern, the icon
tag, and both cached counters at 0. -/
def Channel.new (raw_aliases : List String) : Option Channel :=
  (raw_aliases.mapM parseAlias).map fun parsed =>
    { matcher :=
        { injected := parsed
          snapshot := { matched := [], item_count := 0 }
          pattern := { reparses := [] } }
      last_pattern := ""
      file_icon := FILE_ICON_STR
      result_count := 0
      total_count := 0 }

/-- `Channel::find` (alias.rs lines 113-124): when the pattern differs
from `last_pattern`, reparse column 0 with smart case matching and smart
normalization, passing `pattern.starts_with(last_pattern)` as the append
hint, then store the new pattern; otherwise do nothing. -/
def Channel.find (c : Channel) (pattern : String) : Channel :=
  if pattern ≠ c.last_pattern then
    { c with
      matcher :=
        { c.matcher with
          pattern :=
            { reparses :=
                { column := 0
                  text := pattern
                  case_matching := CaseMatching.Smart
                  normalization := Normalization.Smart
                  append := pattern.startsWith c.last_pattern } ::
                  c.matcher.pattern.reparses } }
      last_pattern := pattern }
  else c

/-- `col_indices.sort_unstable()` on the raw index vector (sorting `Nat`
is extensionally unique, so any correct sort embeds it). -/
def sort_unstable (l : List Nat) : List Nat :=
  List.insertionSort (fun a b => a ≤ b) l

/-- `col_indices.dedup()`: Rust `Vec::dedup` removes consecutive
duplicate elements, keeping the first of each run. -/
def dedup_adjacent : List Nat → List Nat
  | [] => []
  | [a] => [a]
  | a :: b :: t =>
    if a = b then dedup_adjacent (b :: t) else a :: dedup_adjacent (b :: t)

/-- The per-item index pipeline of `Channel::results` (alias.rs lines
149-150): sort the raw matched indices, then drop adjacent duplicates. -/
def processedIndices (item : ScoredItem) : List Nat :=
  dedup_adjacent (sort_unstable item.indices)

/-- Modelled from the spec: the name-field half of
`sep_name_and_value_indices` (crate::utils::indices, not among the
provided sources) — the sorted indices that fall before the name/value
boundary. -/
def name_indices_of (l : List Nat) (name_len : Nat) : List Nat :=
  l.filter (fun i => i < name_len)

/-- Modelled from the spec: the value-field half of
`sep_name_and_value_indices` — the sorted indices at or past the
name/value boundary, rebased to positions into the value field. -/
def value_indices_of (l : List Nat) (name_len : Nat) : List Nat :=
  (l.filter (fun i => name_len ≤ i)).map (fun i => i - name_len)

/-- Modelled from the spec: `sep_name_and_value_indices`
(crate::utils::indices, not among the provided sources): partition the
sorted, deduplicated index set by the name field's length into per-field
index sets, and report for each field whether its set is non-empty (the
attach flags). -/
def sep_name_and_value_indices (l : List Nat) (name_len : Nat) :
    List Nat × List Nat × Bool × Bool :=
  (name_indices_of l name_len, value_indices_of l name_len,
    !(name_indices_of l name_len).isEmpty,
    !(value_indices_of l name_len).isEmpty)

/-- The entry-materialization closure of `Channel::results` (alias.rs
lines 143-182): process the item's raw matched indices, partition them
at the name length, build the entry with value and icon, and attach each
field's `(i, i+1)` highlight ranges exactly when its flag says the field
has matched indices. -/
def mkEntry (icon : FileIcon) (item : ScoredItem) : Entry :=
  match sep_name_and_value_indices (processedIndices item)
      item.data.name.length with
  | (name_indices, value_indices, should_add_name, should_add_value) =>
    let entry :=
      ((Entry.new item.data.name PreviewType.EnvVar).with_value
        item.data.value).with_icon icon
    let entry :=
      if should_add_name then
        entry.with_name_match_ranges (name_indices.map fun i => (i, i + 1))
      else entry
    if should_add_value then
      entry.with_value_match_ranges (value_indices.map fun i => (i, i + 1))
    else entry

/-- `Channel::results` (alias.rs lines 126-185): tick the engine, read
the snapshot, refresh both cached counters from that same snapshot
exactly when the tick reports a change, then materialize the ranked
slice `offset .. min(num_entries + offset, matched_item_count)`; the
`u32` addition `num_entries + offset` wraps modulo `2^32`. -/
def Channel.results (c : Channel) (o : TickOutcome)
    (num_entries offset : Nat) : Channel × List Entry :=
  let ticked := c.matcher.tick o
  let snapshot := ticked.1.snapshot
  let c1 := { c with matcher := ticked.1 }
  let c2 :=
    if ticked.2.changed then
      { c1 with
        result_count := snapshot.matched_item_count
        total_count := snapshot.item_count }
    else c1
  (c2,
    (snapshot.matched_items offset
        (min ((num_entries + offset) % u32Mod) snapshot.matched_item_count)).map
      (mkEntry c.file_icon))

/-- `Channel::get_result` (alias.rs lines 187-194): look the index up in
the current snapshot and build a bare entry — name, value, icon; no
highlight computation. -/
def Channel.get_result (c : Channel) (index : Nat) : Option Entry :=
  (c.matcher.snapshot.matched.get? index).map fun item =>
    ((Entry.new item.data.name PreviewType.EnvVar).with_value
      item.data.value).with_icon c.file_icon

/-- `Channel::result_count` (alias.rs lines 196-198). -/
def Channel.resultCountFn (c : Channel) : Nat := c.result_count

/-- `Channel::total_count` (alias.rs lines 200-202). -/
def Channel.totalCountFn (c : Channel) : Nat := c.total_count

/-- Rust `char::to_ascii_lowercase`: lower-case the ASCII letters
`'A'..'Z'` only, leave every other character unchanged. -/
def asciiLowerChar (c : Char) : Char :=
  if 'A' ≤ c ∧ c ≤ 'Z' then Char.ofNat (c.toNat + 32) else c

/-- Rust `str::to_ascii_lowercase` on a whole string. -/
def asciiLower (s : String) : String :=
  ⟨s.data.map asciiLowerChar⟩

/-- The tagged union `TelevisionChannel` of channels.rs (lines 96-125);
the payload channels other than the alias channel are not among the
provided sources, so the variants are embedded as bare tags — the
registry claims here only concern key lookup. -/
inductive TelevisionChannel
  | Env
  | Files
  | GitRepos
  | Text
  | Stdin
  | Alias
  | RemoteControl
deriving DecidableEq

/-- The channel keys accepted by the registry constructor. -/
def knownChannelKeys : List String :=
  ["env", "files", "gitrepos", "text", "stdin", "alias"]

deriving instance DecidableEq for Except

/-- `TryFrom<&Entry> for TelevisionChannel` (channels.rs lines 128-144):
ASCII-lower-case the entry's name, match it against the fixed key table,
and fail with `"Unknown channel: <name>"` otherwise. -/
def tryFromEntryName (name : String) : Except String TelevisionChannel :=
  let key := asciiLower name
  if key = "env" then Except.ok TelevisionChannel.Env
  else if key = "files" then Except.ok TelevisionChannel.Files
  else if key = "gitrepos" then Except.ok TelevisionChannel.GitRepos
  else if key = "text" then Except.ok TelevisionChannel.Text
  else if key = "stdin" then Except.ok TelevisionChannel.Stdin
  else if key = "alias" then Except.ok TelevisionChannel.Alias
  else Except.error ("Unknown channel: " ++ name)

/-- The method names the `OnAir` trait (channels.rs lines 50-76)
requires of every channel. -/
def onAirMethods : List String :=
  ["find", "results", "get_result", "result_count", "total_count",
    "running", "shutdown"]

/-- The method names the alias channel's trait impl block (alias.rs
lines 112-203) actually provides. -/
def aliasImplMethods : List String :=
  ["find", "results", "get_result", "result_count", "total_count"]

/-- One observable operation on a channel, used to describe reachable
states: a `find` call, a `results` call together with its tick outcome
and window, or a `get_result` call. -/
inductive Op
  | find (p : String)
  | results (o : TickOutcome) (num_entries offset : Nat)
  | get_result (index : Nat)

/-- The state transition of one operation (`get_result` takes `&self`
and leaves the channel unchanged). -/
def stepOp (c : Channel) : Op → Channel
  | Op.find p => c.find p
  | Op.results o n off => (c.results o n off).1
  | Op.get_result _ => c

/-- Run a sequence of operations from a channel state. -/
def runOps (c : Channel) (ops : List Op) : Channel :=
  ops.foldl stepOp c

/-- Engine well-formedness of one operation: any snapshot a tick of
`results` publishes never ranks more items than were ingested. -/
def OpCountWF : Op → Prop
  | Op.results o _ _ => o.snapshot.countWF
  | _ => True

instance : ∀ op : Op, Decidable (OpCountWF op)
  | Op.find _ => inferInstanceAs (Decidable True)
  | Op.results o _ _ => inferInstanceAs (Decidable o.snapshot.countWF)
  | Op.get_result _ => inferInstanceAs (Decidable True)

/-- The ingested-item counts the engine publishes along a trace, in
order of the `results` calls that observe them. -/
def opTotals (ops : List Op) : List Nat :=
  ops.filterMap fun op =>
    match op with
    | Op.results o _ _ => some o.snapshot.item_count
    | _ => none

/-- A concrete two-item snapshot used by witnesses: the ranked matches
for pattern "l" over the aliases of the design document's scenario. -/
def sampleSnapshot : Snapshot :=
  { matched :=
      [ { data := { name := "ll", value := "ls -la" }, indices := [1, 0, 1] }
      , { data := { name := "gs", value := "git status" }, indices := [6] } ]
    item_count := 2 }

/-- A concrete changed tick outcome publishing `sampleSnapshot`. -/
def sampleOutcome : TickOutcome :=
  { status := { changed := true, running := false }
    snapshot := sampleSnapshot }

/-- A concrete unchanged tick outcome publishing `sampleSnapshot`. -/
def sampleOutcomeUnchanged : TickOutcome :=
  { status := { changed := false, running := false }
    snapshot := sampleSnapshot }

/-- A concrete channel state whose engine already holds
`sampleSnapshot`. -/
def sampleChannel : Channel :=
  { matcher :=
      { injected :=
          [ { name := "ll", value := "ls -la" }
          , { name := "gs", value := "git status" } ]
        snapshot := sampleSnapshot
        pattern := { reparses := [] } }
    last_pattern := "l"
    file_icon := FILE_ICON_STR
    result_count := 2
    total_count := 2 }

/-- The first matched item of `sampleSnapshot` (raw indices out of order
and with a duplicate, as workers may emit them). -/
def sampleItem0 : ScoredItem :=
  { data := { name := "ll", value := "ls -la" }, indices := [1, 0, 1] }

/-- The second matched item of `sampleSnapshot`: its single raw index 6
falls past the name/value boundary (name length 2), into the value. -/
def sampleItem1 : ScoredItem :=
  { data := { name := "gs", value := "git status" }, indices := [6] }

/-- The bare entry `get_result` materializes for `sampleItem0`: name,
value and icon only — no highlight ranges. -/
def sampleBareEntry0 : Entry :=
  { name := "ll"
    value := some "ls -la"
    icon := some FILE_ICON_STR
    preview_type := PreviewType.EnvVar }

/-- The channel state `Channel::new` produces for the scenario aliases:
parsed aliases pushed through the injector, empty initial snapshot,
empty pattern, both counters 0. -/
def sampleNewChannel : Channel :=
  { matcher :=
      { injected :=
          [ { name := "ll", value := "ls -la" }
          , { name := "gs", value := "git status" } ]
        snapshot := { matched := [], item_count := 0 }
        pattern := { reparses := [] } }
    last_pattern := ""
    file_icon := FILE_ICON_STR
    result_count := 0
    total_count := 0 }

/-- Validity of one optional highlight-range list against a field of the
given length: absent is valid, and a present list must have every
half-open range inside `[0, len)` and its ranges sorted ascending and
pairwise non-overlapping. -/
def validRanges (len : Nat) : Option (List (Nat × Nat)) → Prop
  | none => True
  | some rs =>
    (∀ ab ∈ rs, ab.1 < len ∧ ab.2 ≤ len) ∧
    rs.Pairwise (fun ab cd => ab.1 < cd.1 ∧ ab.2 ≤ cd.1)

instance (len : Nat) : ∀ o : Option (List (Nat × Nat)),
    Decidable (validRanges len o)
  | none => inferInstanceAs (Decidable True)
  | some _ => inferInstanceAs (Decidable (_ ∧ _))

/-- The highlight-range validity contract of one entry: name ranges
bounded by the name, value ranges bounded by the value. -/
def RangesValid (e : Entry) : Prop :=
  validRanges e.name.length e.name_match_ranges ∧
  validRanges (e.value.getD "").length e.value_match_ranges

instance (e : Entry) : Decidable (RangesValid e) :=
  inferInstanceAs (Decidable (_ ∧ _))

/-! ## Helper lemmas -/

theorem mem_dedup_adjacent : ∀ (l : List Nat) (x : Nat),
    x ∈ dedup_adjacent l ↔ x ∈ l
  | [], x => by simp [dedup_adjacent]
  | [a], x => by simp [dedup_adjacent]
  | a :: b :: t, x => by
    by_cases hab : a = b
    · subst hab
      rw [show dedup_adjacent (a :: a :: t) = dedup_adjacent (a :: t) from
        if_pos rfl]
      rw [mem_dedup_adjacent (a :: t) x]
      simp [List.mem_cons]
    · rw [show dedup_adjacent (a :: b :: t) = a :: dedup_adjacent (b :: t) from
        if_neg hab]
      simp [List.mem_cons, mem_dedup_adjacent (b :: t) x]

theorem pairwise_lt_dedup_adjacent : ∀ l : List Nat,
    l.Pairwise (fun a b => a ≤ b) →
    (dedup_adjacent l).Pairwise (fun a b => a < b)
  | [], _ => by simp [dedup_adjacent]
  | [a], _ => by simp [dedup_adjacent]
  | a :: b :: t, h => by
    rcases List.pairwise_cons.mp h with ⟨ha, ht⟩
    by_cases hab : a = b
    · subst hab
      rw [show dedup_adjacent (a :: a :: t) = dedup_adjacent (a :: t) from
        if_pos rfl]
      exact pairwise_lt_dedup_adjacent (a :: t) ht
    · rw [show dedup_adjacent (a :: b :: t) = a :: dedup_adjacent (b :: t) from
        if_neg hab]
      refine List.pairwise_cons.mpr ⟨?_, pairwise_lt_dedup_adjacent (b :: t) ht⟩
      intro x hx
      have hxbt : x ∈ b :: t := (mem_dedup_adjacent (b :: t) x).mp hx
      have hab' : a < b := lt_of_le_of_ne (ha b (List.mem_cons_self b t)) hab
      rcases List.mem_cons.mp hxbt with hxb | hxt
      · exact hxb ▸ hab'
      · exact lt_of_lt_of_le hab'
          ((List.pairwise_cons.mp ht).1 x hxt)

theorem mem_processedIndices (item : ScoredItem) (x : Nat) :
    x ∈ processedIndices item ↔ x ∈ item.indices := by
  unfold processedIndices sort_unstable
  rw [mem_dedup_adjacent]
  exact (List.perm_insertionSort _ _).mem_iff

theorem pairwise_lt_processedIndices (item : ScoredItem) :
    (processedIndices item).Pairwise (fun a b => a < b) :=
  pairwise_lt_dedup_adjacent _
    (List.sorted_insertionSort (fun a b => a ≤ b) item.indices)

theorem mkEntry_eq (icon : FileIcon) (item : ScoredItem) :
    mkEntry icon item =
      { name := item.data.name
        value := some item.data.value
        icon := some icon
        name_match_ranges :=
          if name_indices_of (processedIndices item) item.data.name.length = []
          then none
          else some ((name_indices_of (processedIndices item)
              item.data.name.length).map fun i => (i, i + 1))
        value_match_ranges :=
          if value_indices_of (processedIndices item) item.data.name.length = []
          then none
          else some ((value_indices_of (processedIndices item)
              item.data.name.length).map fun i => (i, i + 1))
        preview_type := PreviewType.EnvVar } := by
  unfold mkEntry sep_name_and_value_indices
  simp only [Entry.new, Entry.with_value, Entry.with_icon,
    Entry.with_name_match_ranges, Entry.with_value_match_ranges]
  by_cases hn :
      name_indices_of (processedIndices item) item.data.name.length = [] <;>
    by_cases hv :
        value_indices_of (processedIndices item) item.data.name.length = [] <;>
      simp [hn, hv, List.isEmpty_iff]

theorem splitOnChar_ne_nil (sep : Char) : ∀ l : List Char,
    splitOnChar sep l ≠ []
  | [] => by simp [splitOnChar]
  | c :: cs => by
    cases h : splitOnChar sep cs with
    | nil => simp [splitOnChar, h]
    | cons hd tl => by_cases hc : c = sep <;> simp [splitOnChar, h, hc]

theorem splitOnChar_not_mem (sep : Char) : ∀ l : List Char, sep ∉ l →
    splitOnChar sep l = [l]
  | [], _ => rfl
  | c :: cs, h => by
    have hc : c ≠ sep := fun e => h (e ▸ List.mem_cons_self c cs)
    have ih := splitOnChar_not_mem sep cs (fun m => h (List.mem_cons_of_mem c m))
    simp [splitOnChar, ih, hc]

theorem splitOnChar_append (sep : Char) : ∀ xs ys : List Char, sep ∉ xs →
    splitOnChar sep (xs ++ sep :: ys) = xs :: splitOnChar sep ys
  | [], ys, _ => by
    cases h : splitOnChar sep ys with
    | nil => exact absurd h (splitOnChar_ne_nil sep ys)
    | cons hd tl => simp [splitOnChar, h]
  | x :: xs, ys, h => by
    have hx : x ≠ sep := fun e => h (e ▸ List.mem_cons_self x xs)
    have ih := splitOnChar_append sep xs ys (fun m => h (List.mem_cons_of_mem x m))
    simp [splitOnChar, ih, hx]

theorem mem_name_indices (item : ScoredItem) (len i : Nat) :
    i ∈ name_indices_of (processedIndices item) len ↔
      i ∈ item.indices ∧ i < len := by
  simp [name_indices_of, List.mem_filter, mem_processedIndices]

theorem mem_value_indices (item : ScoredItem) (len i : Nat) :
    i ∈ value_indices_of (processedIndices item) len ↔
      (len + i) ∈ item.indices := by
  unfold value_indices_of
  simp only [List.mem_map, List.mem_filter, mem_processedIndices,
    decide_eq_true_eq]
  constructor
  · rintro ⟨j, ⟨hj, hle⟩, rfl⟩
    have : len + (j - len) = j := by omega
    rw [this]
    exact hj
  · intro h
    exact ⟨len + i, ⟨h, by omega⟩, by omega⟩

theorem pairwise_lt_name_indices (item : ScoredItem) (len : Nat) :
    (name_indices_of (processedIndices item) len).Pairwise
      (fun a b => a < b) :=
  List.Pairwise.sublist (List.filter_sublist _)
    (pairwise_lt_processedIndices item)

theorem pairwise_lt_value_indices (item : ScoredItem) (len : Nat) :
    (value_indices_of (processedIndices item) len).Pairwise
      (fun a b => a < b) := by
  unfold value_indices_of
  rw [List.pairwise_map]
  refine List.Pairwise.imp_of_mem ?_
    (List.Pairwise.sublist (List.filter_sublist _)
      (pairwise_lt_processedIndices item))
  intro a b ha hb hab
  have ha' : len ≤ a := by
    have := (List.mem_filter.mp ha).2
    simpa using this
  omega

theorem results_snd_eq (c : Channel) (o : TickOutcome) (n off : Nat) :
    (c.results o n off).2 =
      ((o.snapshot.matched.take
          (min ((n + off) % u32Mod) o.snapshot.matched.length)).drop
        off).map (mkEntry c.file_icon) := rfl

theorem range_flatMap_take_drop {α : Type} (l : List α) (n : Nat) :
    ∀ k, ((List.range k).flatMap fun i => (l.drop (i * n)).take n) =
      l.take (k * n)
  | 0 => by simp
  | k + 1 => by
    rw [List.range_succ, List.flatMap_append,
      range_flatMap_take_drop l n k, List.flatMap_singleton,
      show (k + 1) * n = k * n + n by ring, List.take_add]

theorem chain_le_of_le {a b : Nat} {t : List Nat} (h : a ≤ b)
    (hc : List.Chain (fun x y => x ≤ y) b t) :
    List.Chain (fun x y => x ≤ y) a t := by
  cases hc with
  | nil => exact List.Chain.nil
  | cons hbc hrest => exact List.Chain.cons (le_trans h hbc) hrest

theorem find_counters (c : Channel) (p : String) :
    (c.find p).result_count = c.result_count ∧
    (c.find p).total_count = c.total_count := by
  by_cases h : p = c.last_pattern <;> simp [Channel.find, h]

theorem results_fst_counters (c : Channel) (o : TickOutcome)
    (n off : Nat) :
    (c.results o n off).1.result_count =
      (if o.status.changed then o.snapshot.matched_item_count
        else c.result_count) ∧
    (c.results o n off).1.total_count =
      (if o.status.changed then o.snapshot.item_count
        else c.total_count) := by
  unfold Channel.results Matcher.tick
  by_cases h : o.status.changed <;> simp [h]

theorem runOps_result_le : ∀ (ops : List Op) (c : Channel),
    (∀ op ∈ ops, OpCountWF op) →
    c.result_count ≤ c.total_count →
    (runOps c ops).result_count ≤ (runOps c ops).total_count
  | [], c, _, h => h
  | op :: rest, c, hwf, h => by
    have hop : OpCountWF op := hwf op (List.mem_cons_self op rest)
    have hrest : ∀ x ∈ rest, OpCountWF x :=
      fun x hx => hwf x (List.mem_cons_of_mem op hx)
    have hstep : (stepOp c op).result_count ≤ (stepOp c op).total_count := by
      cases op with
      | find p =>
        rcases find_counters c p with ⟨e1, e2⟩
        rw [show stepOp c (Op.find p) = c.find p from rfl, e1, e2]
        exact h
      | results o n off =>
        rcases results_fst_counters c o n off with ⟨e1, e2⟩
        rw [show stepOp c (Op.results o n off) = (c.results o n off).1 from
          rfl, e1, e2]
        by_cases hch : o.status.changed <;> simp [hch]
        · exact hop
        · exact h
      | get_result i => exact h
    exact runOps_result_le rest (stepOp c op) hrest hstep

theorem runOps_total_mono : ∀ (ops : List Op) (c : Channel),
    List.Chain (fun a b => a ≤ b) c.total_count (opTotals ops) →
    c.total_count ≤ (runOps c ops).total_count
  | [], c, _ => le_refl _
  | Op.find p :: rest, c, hc => by
    have e := (find_counters c p).2
    have hc' : List.Chain (fun a b => a ≤ b) (c.find p).total_count
        (opTotals rest) := by
      rw [e]
      simpa [opTotals, List.filterMap_cons] using hc
    calc c.total_count = (c.find p).total_count := e.symm
      _ ≤ (runOps (c.find p) rest).total_count :=
          runOps_total_mono rest (c.find p) hc'
  | Op.get_result i :: rest, c, hc => by
    have hc' : List.Chain (fun a b => a ≤ b) c.total_count
        (opTotals rest) := by simpa [opTotals, List.filterMap_cons] using hc
    exact runOps_total_mono rest c hc'
  | Op.results o n off :: rest, c, hc => by
    have hc0 : List.Chain (fun a b => a ≤ b) c.total_count
        (o.snapshot.item_count :: opTotals rest) := by
      simpa [opTotals, List.filterMap_cons] using hc
    cases hc0 with
    | cons hhead hrest =>
      have e := (results_fst_counters c o n off).2
      by_cases hch : o.status.changed
      · have e' : (c.results o n off).1.total_count =
            o.snapshot.item_count := by rw [e, if_pos hch]
        calc c.total_count ≤ o.snapshot.item_count := hhead
          _ ≤ (runOps (c.results o n off).1 rest).total_count := by
              rw [show o.snapshot.item_count =
                  (c.results o n off).1.total_count from e'.symm]
              exact runOps_total_mono rest (c.results o n off).1
                (e' ▸ hrest)
      · have e' : (c.results o n off).1.total_count = c.total_count := by
          rw [e, if_neg hch]
        have hc' : List.Chain (fun a b => a ≤ b)
            (c.results o n off).1.total_count (opTotals rest) := by
          rw [e']
          exact chain_le_of_le hhead hrest
        calc c.total_count = (c.results o n off).1.total_count := e'.symm
          _ ≤ (runOps (c.results o n off).1 rest).total_count :=
              runOps_total_mono rest (c.results o n off).1 hc'

theorem channel_new_counters (ls : List String) (c0 : Channel)
    (h : Channel.new ls = some c0) :
    c0.result_count = 0 ∧ c0.total_count = 0 := by
  unfold Channel.new at h
  cases hm : ls.mapM parseAlias with
  | none => rw [hm] at h; exact absurd h (by simp)
  | some parsed =>
    rw [hm] at h
    injection h with h
    rw [← h]
    exact ⟨rfl, rfl⟩

/-! ## Claim theorems -/

/-- Claim C2: for every channel state and pattern different from
`last_pattern`, `find` issues exactly one reparse of the matcher's
pattern, with smart case matching, smart normalization, and the append
hint `pattern.starts_with(last_pattern)`, and then stores the new
pattern in `last_pattern`. -/
theorem find_reparses_once (c : Channel) (p : String)
    (h : p ≠ c.last_pattern) :
    (c.find p).matcher.pattern.reparses =
      { column := 0
        text := p
        case_matching := CaseMatching.Smart
        normalization := Normalization.Smart
        append := p.startsWith c.last_pattern } ::
        c.matcher.pattern.reparses ∧
    (c.find p).last_pattern = p := by
  simp [Channel.find, h]

theorem find_reparses_once_witness :
    ("lx" ≠ sampleChannel.last_pattern) ∧
    ((sampleChannel.find "lx").matcher.pattern.reparses =
      { column := 0
        text := "lx"
        case_matching := CaseMatching.Smart
        normalization := Normalization.Smart
        append := "lx".startsWith sampleChannel.last_pattern } ::
        sampleChannel.matcher.pattern.reparses ∧
      (sampleChannel.find "lx").last_pattern = "lx") :=
  ⟨by decide, find_reparses_once sampleChannel "lx" (by decide)⟩

/-- Claim C3: when the pattern equals `last_pattern`, `find` is a no-op
leaving the whole channel state (reparse history included) unchanged,
so a second identical `find` performs no additional scoring work and
yields a state identical to a single call. -/
theorem find_noop_on_same_pattern (c : Channel) (p : String) :
    (p = c.last_pattern → c.find p = c) ∧
    (c.find p).find p = c.find p := by
  constructor
  · intro h
    simp [Channel.find, h]
  · by_cases h : p = c.last_pattern
    · have e : c.find p = c := by simp [Channel.find, h]
      rw [e, e]
    · simp [Channel.find, h]

theorem find_noop_on_same_pattern_witness :
    ("l" = sampleChannel.last_pattern) ∧
    (sampleChannel.find "l" = sampleChannel ∧
      (sampleChannel.find "l").find "l" = sampleChannel.find "l") :=
  ⟨by decide,
    (find_noop_on_same_pattern sampleChannel "l").1 (by decide),
    (find_noop_on_same_pattern sampleChannel "l").2⟩

/-- Claim C8 (code evaluated at the failing point): the `OnAir` trait
requires `running` and `shutdown`, but the alias channel's trait impl
block provides neither, so the alias channel does not implement the
complete capability set the claim asserts. -/
theorem on_air_alias_impl_gap :
    "running" ∈ onAirMethods ∧ "shutdown" ∈ onAirMethods ∧
    "running" ∉ aliasImplMethods ∧ "shutdown" ∉ aliasImplMethods := by
  decide

/-- Claim C9: constructing a registry channel from an entry's name
succeeds exactly for the six known keys compared ASCII
case-insensitively, and every other key yields the typed error message
naming the unrecognized key. -/
theorem registry_key_lookup (name : String) :
    ((tryFromEntryName name).isOk = true ↔
      asciiLower name ∈ knownChannelKeys) ∧
    (asciiLower name ∉ knownChannelKeys →
      tryFromEntryName name = Except.error ("Unknown channel: " ++ name)) := by
  constructor
  · unfold tryFromEntryName
    dsimp only
    split_ifs with h1 h2 h3 h4 h5 h6 <;>
      simp_all [knownChannelKeys, Except.isOk, Except.toBool]
  · intro h
    unfold tryFromEntryName
    dsimp only
    split_ifs with h1 h2 h3 h4 h5 h6 <;>
      first
        | rfl
        | simp_all [knownChannelKeys]

theorem registry_key_lookup_witness :
    (asciiLower "bogus" ∉ knownChannelKeys) ∧
    tryFromEntryName "bogus" =
      Except.error ("Unknown channel: " ++ "bogus") :=
  ⟨by decide, (registry_key_lookup "bogus").2 (by decide)⟩

/-- Claim C10: for an ingested alias line, the text before the first
`'='` becomes the name and the text strictly between the first and
second `'='` becomes the value — anything after a second `'='` is
silently dropped — while a line with no `'='` at all makes construction
panic (the `unwrap` of the missing second split part, modelled as
`none`). -/
theorem alias_line_parsing :
    (∀ n v r : String, '=' ∉ n.data → '=' ∉ v.data →
      parseAlias (n ++ "=" ++ v ++ "=" ++ r) =
        some { name := n, value := v }) ∧
    (∀ n v : String, '=' ∉ n.data → '=' ∉ v.data →
      parseAlias (n ++ "=" ++ v) = some { name := n, value := v }) ∧
    (∀ line : String, '=' ∉ line.data → parseAlias line = none) := by
  refine ⟨?_, ?_, ?_⟩
  · intro n v r hn hv
    have hdata : (n ++ "=" ++ v ++ "=" ++ r).data
        = n.data ++ '=' :: (v.data ++ '=' :: r.data) := by
      simp [String.data_append]
    unfold parseAlias
    rw [hdata, splitOnChar_append _ _ _ hn, splitOnChar_append _ _ _ hv]
  · intro n v hn hv
    have hdata : (n ++ "=" ++ v).data = n.data ++ '=' :: v.data := by
      simp [String.data_append]
    unfold parseAlias
    rw [hdata, splitOnChar_append _ _ _ hn, splitOnChar_not_mem _ _ hv]
  · intro line h
    unfold parseAlias
    rw [splitOnChar_not_mem _ _ h]

/-- Claim C6: the cached counters are written only by a `results` call
whose tick reports a change, and then both are read from the same fresh
snapshot; an unchanged tick leaves both counters at their cached values;
the counter refresh touches no other channel field, and `find` never
writes the counters. -/
theorem counters_refresh_policy (c : Channel) (o : TickOutcome)
    (n off : Nat) (p : String) :
    (o.status.changed = true →
      (c.results o n off).1.result_count =
          o.snapshot.matched_item_count ∧
        (c.results o n off).1.total_count = o.snapshot.item_count) ∧
    (o.status.changed = false →
      (c.results o n off).1.result_count = c.result_count ∧
        (c.results o n off).1.total_count = c.total_count) ∧
    (c.results o n off).1.last_pattern = c.last_pattern ∧
    (c.results o n off).1.file_icon = c.file_icon ∧
    (c.results o n off).1.matcher.pattern = c.matcher.pattern ∧
    (c.find p).result_count = c.result_count ∧
    (c.find p).total_count = c.total_count := by
  refine ⟨?_, ?_, ?_, ?_, ?_, (find_counters c p).1, (find_counters c p).2⟩
  · intro h
    rcases results_fst_counters c o n off with ⟨e1, e2⟩
    rw [e1, e2, if_pos h, if_pos h]
    exact ⟨rfl, rfl⟩
  · intro h
    rcases results_fst_counters c o n off with ⟨e1, e2⟩
    rw [e1, e2, if_neg (by simp [h]), if_neg (by simp [h])]
    exact ⟨rfl, rfl⟩
  · unfold Channel.results Matcher.tick
    by_cases h : o.status.changed <;> simp [h]
  · unfold Channel.results Matcher.tick
    by_cases h : o.status.changed <;> simp [h]
  · unfold Channel.results Matcher.tick
    by_cases h : o.status.changed <;> simp [h]

theorem counters_refresh_policy_witness :
    (sampleOutcome.status.changed = true ∧
      ((sampleChannel.results sampleOutcome 10 0).1.result_count =
          sampleOutcome.snapshot.matched_item_count ∧
        (sampleChannel.results sampleOutcome 10 0).1.total_count =
          sampleOutcome.snapshot.item_count)) ∧
    (sampleOutcomeUnchanged.status.changed = false ∧
      ((sampleChannel.results sampleOutcomeUnchanged 10 0).1.result_count =
          sampleChannel.result_count ∧
        (sampleChannel.results sampleOutcomeUnchanged 10 0).1.total_count =
          sampleChannel.total_count)) :=
  ⟨⟨rfl,
    (counters_refresh_policy sampleChannel sampleOutcome 10 0 "x").1 rfl⟩,
   ⟨rfl,
    (counters_refresh_policy sampleChannel sampleOutcomeUnchanged 10 0
      "x").2.1 rfl⟩⟩

/-- Claim C7: from construction (both counters 0) and across every
operation whose tick outcomes satisfy the engine's count contract,
`result_count ≤ total_count` holds in every reachable state; and
`total_count` is non-decreasing along any operation sequence whose
published ingested-item counts never shrink (the ingest-only
condition). -/
theorem counters_invariant :
    (∀ (ls : List String) (c0 : Channel) (ops : List Op),
      Channel.new ls = some c0 →
      (∀ op ∈ ops, OpCountWF op) →
      (runOps c0 ops).result_count ≤ (runOps c0 ops).total_count) ∧
    (∀ (c : Channel) (ops : List Op),
      List.Chain (fun a b => a ≤ b) c.total_count (opTotals ops) →
      c.total_count ≤ (runOps c ops).total_count) := by
  constructor
  · intro ls c0 ops hnew hwf
    rcases channel_new_counters ls c0 hnew with ⟨h1, h2⟩
    exact runOps_result_le ops c0 hwf (by rw [h1, h2])
  · intro c ops hc
    exact runOps_total_mono ops c hc

theorem counters_invariant_witness :
    (Channel.new ["ll=ls -la", "gs=git status"] = some sampleNewChannel ∧
      (∀ op ∈ [Op.results sampleOutcome 10 0], OpCountWF op) ∧
      (runOps sampleNewChannel [Op.results sampleOutcome 10 0]).result_count ≤
        (runOps sampleNewChannel [Op.results sampleOutcome 10 0]).total_count) ∧
    (List.Chain (fun a b => a ≤ b) sampleChannel.total_count
        (opTotals [Op.results sampleOutcome 10 0]) ∧
      sampleChannel.total_count ≤
        (runOps sampleChannel [Op.results sampleOutcome 10 0]).total_count) :=
  ⟨⟨by decide, by decide,
    counters_invariant.1 ["ll=ls -la", "gs=git status"] sampleNewChannel
      [Op.results sampleOutcome 10 0] (by decide) (by decide)⟩,
   ⟨List.Chain.cons (by decide) List.Chain.nil,
    counters_invariant.2 sampleChannel [Op.results sampleOutcome 10 0]
      (List.Chain.cons (by decide) List.Chain.nil)⟩⟩

/-- Claim C1 (amended): when the `u32` addition `num_entries + offset`
does not overflow, `results(n, offset)` returns exactly
`min(n, result_count − offset)` entries for `offset < result_count`
(the matched-item count of the current snapshot); for
`offset ≥ result_count` it returns the empty sequence for all
arguments; and concatenating the pages `results(n, 0), results(n, n),
results(n, 2n), …` over a frozen snapshot, with the page offsets inside
the `u32` range, reconstructs the full ranked list with no gaps or
duplicates. -/
theorem results_pagination :
    (∀ (c : Channel) (o : TickOutcome) (n off : Nat),
      n + off < u32Mod →
      off < o.snapshot.matched_item_count →
      (c.results o n off).2.length =
        min n (o.snapshot.matched_item_count - off)) ∧
    (∀ (c : Channel) (o : TickOutcome) (n off : Nat),
      o.snapshot.matched_item_count ≤ off →
      (c.results o n off).2 = []) ∧
    (∀ (c : Channel) (o : TickOutcome) (n k : Nat),
      o.snapshot.matched_item_count ≤ k * n →
      k * n < u32Mod →
      ((List.range k).flatMap fun i => (c.results o n (i * n)).2) =
        o.snapshot.matched.map (mkEntry c.file_icon)) := by
  refine ⟨?_, ?_, ?_⟩
  · intro c o n off hlt hoff
    rw [results_snd_eq, List.length_map, List.length_drop,
      List.length_take, Nat.mod_eq_of_lt hlt]
    unfold Snapshot.matched_item_count at hoff ⊢
    omega
  · intro c o n off hoff
    rw [results_snd_eq]
    have hnil : ((o.snapshot.matched.take
        (min ((n + off) % u32Mod) o.snapshot.matched.length)).drop off)
        = [] := by
      apply List.drop_eq_nil_of_le
      rw [List.length_take]
      unfold Snapshot.matched_item_count at hoff
      omega
    rw [hnil]
    rfl
  · intro c o n k hM hk
    unfold Snapshot.matched_item_count at hM
    have hpage : ∀ i ∈ List.range k,
        (c.results o n (i * n)).2 =
          ((o.snapshot.matched.drop (i * n)).take n).map
            (mkEntry c.file_icon) := by
      intro i hi
      have hik : i < k := List.mem_range.mp hi
      have hle : n + i * n < u32Mod := by
        have h1 : n + i * n = (i + 1) * n := by ring
        have h2 : (i + 1) * n ≤ k * n := Nat.mul_le_mul_right n hik
        omega
      rw [results_snd_eq, Nat.mod_eq_of_lt hle, List.drop_take]
      apply congrArg (List.map (mkEntry c.file_icon))
      rw [List.take_eq_take, List.length_drop]
      omega
    rw [List.flatMap_congr hpage, ← List.map_flatMap,
      range_flatMap_take_drop, List.take_of_length_le hM]

theorem results_pagination_witness :
    (1 + 1 < u32Mod ∧ 1 < sampleOutcome.snapshot.matched_item_count ∧
      (sampleChannel.results sampleOutcome 1 1).2.length =
        min 1 (sampleOutcome.snapshot.matched_item_count - 1)) ∧
    (sampleOutcome.snapshot.matched_item_count ≤ 5 ∧
      (sampleChannel.results sampleOutcome 3 5).2 = []) ∧
    (sampleOutcome.snapshot.matched_item_count ≤ 1 * 2 ∧
      1 * 2 < u32Mod ∧
      ((List.range 1).flatMap fun i =>
          (sampleChannel.results sampleOutcome 2 (i * 2)).2) =
        sampleOutcome.snapshot.matched.map
          (mkEntry sampleChannel.file_icon)) :=
  ⟨⟨by decide, by decide,
    results_pagination.1 sampleChannel sampleOutcome 1 1 (by decide)
      (by decide)⟩,
   ⟨by decide,
    results_pagination.2.1 sampleChannel sampleOutcome 3 5 (by decide)⟩,
   ⟨by decide, by decide,
    results_pagination.2.2 sampleChannel sampleOutcome 2 1 (by decide)
      (by decide)⟩⟩

/-- Claim C1 counterexample: with `num_entries = 2^32 − 1` and
`offset = 1` against a two-item snapshot, the wrapped `u32` addition
`num_entries + offset` makes `results` return zero entries although
`offset < result_count` and the claim demands
`min(num_entries, result_count − offset) = 1` entry. -/
theorem results_pagination_overflow_cex :
    1 < sampleOutcome.snapshot.matched_item_count ∧
    min 4294967295 (sampleOutcome.snapshot.matched_item_count - 1) = 1 ∧
    (sampleChannel.results sampleOutcome 4294967295 1).2.length = 0 :=
  ⟨by decide, by decide, by decide⟩

theorem alias_line_parsing_witness :
    ('=' ∉ "ll".data ∧ '=' ∉ "ls -la".data) ∧
    parseAlias ("ll" ++ "=" ++ "ls -la") =
      some { name := "ll", value := "ls -la" } :=
  ⟨⟨by decide, by decide⟩,
    alias_line_parsing.2.1 "ll" "ls -la" (by decide) (by decide)⟩



theorem validRanges_some (len : Nat) (rs : List (Nat × Nat)) :
    validRanges len (some rs) ↔
      ((∀ ab ∈ rs, ab.1 < len ∧ ab.2 ≤ len) ∧
        rs.Pairwise (fun ab cd => ab.1 < cd.1 ∧ ab.2 ≤ cd.1)) :=
  Iff.rfl

theorem name_indices_nil_iff (item : ScoredItem) (len : Nat) :
    name_indices_of (processedIndices item) len = [] ↔
      ∀ i ∈ item.indices, ¬ i < len := by
  unfold name_indices_of
  simp only [List.filter_eq_nil_iff, decide_eq_true_eq,
    mem_processedIndices]

theorem value_indices_nil_iff (item : ScoredItem) (len : Nat) :
    value_indices_of (processedIndices item) len = [] ↔
      ∀ i ∈ item.indices, i < len := by
  unfold value_indices_of
  simp only [List.map_eq_nil_iff, List.filter_eq_nil_iff,
    decide_eq_true_eq, mem_processedIndices]
  constructor
  · intro h i hi
    by_contra hlt
    exact h i hi (by omega)
  · intro h i hi hle
    exact absurd (h i hi) (by omega)

theorem get_result_entry (c : Channel) (index : Nat) (e : Entry)
    (h : c.get_result index = some e) :
    e.name_match_ranges = none ∧ e.value_match_ranges = none := by
  unfold Channel.get_result at h
  cases hg : c.matcher.snapshot.matched.get? index with
  | none => rw [hg] at h; cases h
  | some it =>
    rw [hg] at h
    injection h with h
    rw [← h]
    exact ⟨rfl, rfl⟩

/-- Claim C4 (amended): on every `results` call each returned entry is
the materialization of a matched item whose raw index set has been
deduplicated and sorted and then partitioned at the name length into
per-field `(i, i+1)` ranges, attached exactly when the field's index
set is non-empty; `get_result`, however, performs no highlight
computation and attaches no ranges. -/
theorem results_highlights (c : Channel) (o : TickOutcome)
    (n off : Nat) (icon : FileIcon) (item : ScoredItem) (index : Nat) :
    (∀ e ∈ (c.results o n off).2,
      ∃ it ∈ o.snapshot.matched, e = mkEntry c.file_icon it) ∧
    ((mkEntry icon item).name_match_ranges = none ↔
      ∀ i ∈ item.indices, ¬ i < item.data.name.length) ∧
    (∀ rs, (mkEntry icon item).name_match_ranges = some rs →
      rs ≠ [] ∧ (∀ ab ∈ rs, ab.2 = ab.1 + 1) ∧
      rs.Pairwise (fun ab cd => ab.1 < cd.1) ∧
      (∀ i : Nat, (i, i + 1) ∈ rs ↔
        i ∈ item.indices ∧ i < item.data.name.length)) ∧
    ((mkEntry icon item).value_match_ranges = none ↔
      ∀ i ∈ item.indices, i < item.data.name.length) ∧
    (∀ rs, (mkEntry icon item).value_match_ranges = some rs →
      rs ≠ [] ∧ (∀ ab ∈ rs, ab.2 = ab.1 + 1) ∧
      rs.Pairwise (fun ab cd => ab.1 < cd.1) ∧
      (∀ i : Nat, (i, i + 1) ∈ rs ↔
        (item.data.name.length + i) ∈ item.indices)) ∧
    (∀ e, c.get_result index = some e →
      e.name_match_ranges = none ∧ e.value_match_ranges = none) := by
  refine ⟨?_, ?_, ?_, ?_, ?_, fun e he => get_result_entry c index e he⟩
  · intro e he
    rw [results_snd_eq] at he
    rcases List.mem_map.mp he with ⟨it, hit, rfl⟩
    exact ⟨it, List.take_subset _ _ (List.drop_subset _ _ hit), rfl⟩
  · rw [mkEntry_eq]
    dsimp only
    by_cases h : name_indices_of (processedIndices item)
        item.data.name.length = []
    · rw [if_pos h]
      simp only [true_iff]
      exact (name_indices_nil_iff item _).mp h
    · rw [if_neg h]
      simp only [(by simp : (some _ : Option (List (Nat × Nat))) ≠ none),
        false_iff]
      intro hall
      exact h ((name_indices_nil_iff item _).mpr hall)
  · intro rs hrs
    rw [mkEntry_eq] at hrs
    dsimp only at hrs
    by_cases h : name_indices_of (processedIndices item)
        item.data.name.length = []
    · rw [if_pos h] at hrs
      cases hrs
    · rw [if_neg h] at hrs
      injection hrs with hrs
      subst hrs
      refine ⟨by simpa using h, ?_, ?_, ?_⟩
      · intro ab hab
        rcases List.mem_map.mp hab with ⟨i, _, rfl⟩
        rfl
      · rw [List.pairwise_map]
        exact (pairwise_lt_name_indices item _).imp (fun hab => hab)
      · intro i
        simp only [List.mem_map, Prod.mk.injEq]
        constructor
        · rintro ⟨j, hj, rfl, _⟩
          exact (mem_name_indices item _ j).mp hj
        · intro hi
          exact ⟨i, (mem_name_indices item _ i).mpr hi, rfl, rfl⟩
  · rw [mkEntry_eq]
    dsimp only
    by_cases h : value_indices_of (processedIndices item)
        item.data.name.length = []
    · rw [if_pos h]
      simp only [true_iff]
      exact (value_indices_nil_iff item _).mp h
    · rw [if_neg h]
      simp only [(by simp : (some _ : Option (List (Nat × Nat))) ≠ none),
        false_iff]
      intro hall
      exact h ((value_indices_nil_iff item _).mpr hall)
  · intro rs hrs
    rw [mkEntry_eq] at hrs
    dsimp only at hrs
    by_cases h : value_indices_of (processedIndices item)
        item.data.name.length = []
    · rw [if_pos h] at hrs
      cases hrs
    · rw [if_neg h] at hrs
      injection hrs with hrs
      subst hrs
      refine ⟨by simpa using h, ?_, ?_, ?_⟩
      · intro ab hab
        rcases List.mem_map.mp hab with ⟨i, _, rfl⟩
        rfl
      · rw [List.pairwise_map]
        exact (pairwise_lt_value_indices item _).imp (fun hab => hab)
      · intro i
        simp only [List.mem_map, Prod.mk.injEq]
        constructor
        · rintro ⟨j, hj, rfl, _⟩
          exact (mem_value_indices item _ j).mp hj
        · intro hi
          exact ⟨i, (mem_value_indices item _ i).mpr hi, rfl, rfl⟩

theorem results_highlights_witness :
    ((mkEntry sampleChannel.file_icon sampleItem0) ∈
        (sampleChannel.results sampleOutcome 10 0).2 ∧
      ∃ it ∈ sampleOutcome.snapshot.matched,
        mkEntry sampleChannel.file_icon sampleItem0 =
          mkEntry sampleChannel.file_icon it) ∧
    ((mkEntry FILE_ICON_STR sampleItem0).name_match_ranges =
        some [(0, 1), (1, 2)] ∧
      (([(0, 1), (1, 2)] : List (Nat × Nat)) ≠ [] ∧
        (∀ ab ∈ ([(0, 1), (1, 2)] : List (Nat × Nat)), ab.2 = ab.1 + 1) ∧
        ([(0, 1), (1, 2)] : List (Nat × Nat)).Pairwise
          (fun ab cd => ab.1 < cd.1) ∧
        (∀ i : Nat, (i, i + 1) ∈ ([(0, 1), (1, 2)] : List (Nat × Nat)) ↔
          i ∈ sampleItem0.indices ∧
            i < sampleItem0.data.name.length))) ∧
    ((mkEntry FILE_ICON_STR sampleItem1).value_match_ranges =
        some [(4, 5)] ∧
      (([(4, 5)] : List (Nat × Nat)) ≠ [] ∧
        (∀ ab ∈ ([(4, 5)] : List (Nat × Nat)), ab.2 = ab.1 + 1) ∧
        ([(4, 5)] : List (Nat × Nat)).Pairwise
          (fun ab cd => ab.1 < cd.1) ∧
        (∀ i : Nat, (i, i + 1) ∈ ([(4, 5)] : List (Nat × Nat)) ↔
          (sampleItem1.data.name.length + i) ∈ sampleItem1.indices))) ∧
    (sampleChannel.get_result 0 = some sampleBareEntry0 ∧
      (sampleBareEntry0.name_match_ranges = none ∧
        sampleBareEntry0.value_match_ranges = none)) :=
  ⟨⟨by decide,
    (results_highlights sampleChannel sampleOutcome 10 0 FILE_ICON_STR
      sampleItem0 0).1 _ (by decide)⟩,
   ⟨by decide,
    (results_highlights sampleChannel sampleOutcome 10 0 FILE_ICON_STR
      sampleItem0 0).2.2.1 [(0, 1), (1, 2)] (by decide)⟩,
   ⟨by decide,
    (results_highlights sampleChannel sampleOutcome 10 0 FILE_ICON_STR
      sampleItem1 0).2.2.2.2.1 [(4, 5)] (by decide)⟩,
   ⟨by decide,
    (results_highlights sampleChannel sampleOutcome 10 0 FILE_ICON_STR
      sampleItem0 0).2.2.2.2.2 sampleBareEntry0 (by decide)⟩⟩

/-- Claim C4 counterexample: the claim as stated also asserts the
highlight pipeline runs on every `get_result` call, but `get_result`
returns the bare entry with no ranges even for an item whose matched
name-index set is non-empty, while `results` attaches ranges for the
same item of the same snapshot. -/
theorem get_result_no_highlights_cex :
    sampleItem0.indices ≠ [] ∧
    sampleItem0.indices.all (fun i => i < sampleItem0.data.name.length) ∧
    (sampleChannel.get_result 0).map Entry.name_match_ranges =
      some none ∧
    ((sampleChannel.results sampleOutcomeUnchanged 10 0).2.map
        Entry.name_match_ranges).head? = some (some [(0, 1), (1, 2)]) :=
  ⟨by decide, by decide, by decide, by decide⟩

/-- Claim C5: every entry returned by `results` (under the engine
contract that raw indices fall inside the comparison column) and every
entry returned by `get_result` has all name ranges inside
`[0, len(name))`, all value ranges inside `[0, len(value))`, each list
sorted ascending and pairwise non-overlapping. -/
theorem highlight_ranges_valid :
    (∀ (c : Channel) (o : TickOutcome) (n off : Nat),
      o.snapshot.indicesWF →
      ∀ e ∈ (c.results o n off).2, RangesValid e) ∧
    (∀ (c : Channel) (index : Nat) (e : Entry),
      c.get_result index = some e → RangesValid e) := by
  constructor
  · intro c o n off hwf e he
    rw [results_snd_eq] at he
    rcases List.mem_map.mp he with ⟨it, hit, rfl⟩
    have hitm : it ∈ o.snapshot.matched :=
      List.take_subset _ _ (List.drop_subset _ _ hit)
    have hbound := hwf it hitm
    rw [mkEntry_eq]
    unfold RangesValid
    dsimp only
    constructor
    · by_cases h : name_indices_of (processedIndices it)
          it.data.name.length = []
      · rw [if_pos h]
        trivial
      · rw [if_neg h, validRanges_some]
        constructor
        · intro ab hab
          rcases List.mem_map.mp hab with ⟨i, hi, rfl⟩
          have hlt := ((mem_name_indices it _ i).mp hi).2
          exact ⟨hlt, hlt⟩
        · rw [List.pairwise_map]
          exact (pairwise_lt_name_indices it _).imp
            (fun hab => ⟨hab, hab⟩)
    · by_cases h : value_indices_of (processedIndices it)
          it.data.name.length = []
      · rw [if_pos h]
        trivial
      · rw [if_neg h, validRanges_some]
        constructor
        · intro ab hab
          rcases List.mem_map.mp hab with ⟨i, hi, rfl⟩
          have hv := (mem_value_indices it _ i).mp hi
          have := hbound _ hv
          simp only [Option.getD_some]
          exact ⟨by omega, by omega⟩
        · rw [List.pairwise_map]
          exact (pairwise_lt_value_indices it _).imp
            (fun hab => ⟨hab, hab⟩)
  · intro c index e he
    rcases get_result_entry c index e he with ⟨h1, h2⟩
    unfold RangesValid
    rw [h1, h2]
    exact ⟨trivial, trivial⟩

theorem highlight_ranges_valid_witness :
    (sampleOutcome.snapshot.indicesWF ∧
      (mkEntry sampleChannel.file_icon sampleItem0) ∈
        (sampleChannel.results sampleOutcome 10 0).2 ∧
      RangesValid (mkEntry sampleChannel.file_icon sampleItem0)) ∧
    (sampleChannel.get_result 0 = some sampleBareEntry0 ∧
      RangesValid sampleBareEntry0) :=
  ⟨⟨by decide, by decide,
    highlight_ranges_valid.1 sampleChannel sampleOutcome 10 0 (by decide)
      _ (by decide)⟩,
   ⟨by decide,
    highlight_ranges_valid.2 sampleChannel 0 sampleBareEntry0
      (by decide)⟩⟩
